import Mathlib

/-!
Verification of the rsidvar lookup core of the variantkey library.

The sources ship only the interface header `src/c/src/rsidvar.h` (struct
`rsidvar_cols_t` and the four lookup declarations); the function bodies and
the `binsearch.h` search primitive are not part of the sources, so the
operations below are modelled from the specification, faithful to its words
(section references are to the specification document).

Machine integers are modelled as `Nat`; a 32-bit (resp. 64-bit) column is a
total map from row index to `Nat` whose meaningful entries are below `2^32`
(resp. `2^64`).  The `uint64_t *first` / `*pos` / `*last` out-parameters are
modelled by returning the new cursor value(s) next to the return value.
-/

namespace Rsidvar

/-- All-ones mask for a 32-bit key column (`uint32_t` with every bit set). -/
def MASK32 : Nat := 2 ^ 32 - 1

/-- All-ones mask for a 64-bit key column (`uint64_t` with every bit set). -/
def MASK64 : Nat := 2 ^ 64 - 1

/-- First index `i` in the half-open scan window `[lo, lo + n)` with
`p i = true`, or `lo + n` when no index of the window satisfies `p`. -/
def scanFirst (p : Nat → Bool) : Nat → Nat → Nat
  | lo, 0 => lo
  | lo, n + 1 => if p lo then lo else scanFirst p (lo + 1) n

/-- Modelled from the spec: struct `rsidvar_cols_t` of `rsidvar.h`.  The two
column pointers become total maps from row index to value; `nrows` is the
number of rows.  Only indices below `nrows` are meaningful. -/
structure rsidvar_cols_t where
  vk : Nat → Nat
  rs : Nat → Nat
  nrows : Nat

/-- Modelled from the spec: the sorted-column search primitive
`lower_bound(key, lo, hi, mask)` of section 4.2 (its implementation file
`binsearch.h` is missing from the sources): the smallest index
`i` in `[lo, hi+1]` such that `(column[i] & mask) >= (key & mask)`, treating
indices past `hi` as plus infinity (so `hi + 1` when no window index
qualifies). -/
def lower_bound (col : Nat → Nat) (key lo hi mask : Nat) : Nat :=
  scanFirst (fun i => decide (key &&& mask ≤ col i &&& mask)) lo (hi + 1 - lo)

/-- Modelled from the spec: the sorted-column search primitive
`upper_bound(key, lo, hi, mask)` of section 4.2 (its implementation file
`binsearch.h` is missing from the sources): the smallest index
`i` in `[lo, hi+1]` such that `(column[i] & mask) > (key & mask)`. -/
def upper_bound (col : Nat → Nat) (key lo hi mask : Nat) : Nat :=
  scanFirst (fun i => decide (key &&& mask < col i &&& mask)) lo (hi + 1 - lo)

/-- Modelled from the spec: `find_rv_variantkey_by_rsid` (declared at
`rsidvar.h:106`, body missing from the sources), per section 4.3.1: run
`lower_bound` with the all-ones mask on the rsID key column over
`[first, last]`; on a hit return the VariantKey there and the hit index as
the new `*first`, otherwise return zero and `last + 1`.  Result:
`(return value, final *first)`. -/
def find_rv_variantkey_by_rsid (crv : rsidvar_cols_t) (first last rsid : Nat) :
    Nat × Nat :=
  let i := lower_bound crv.rs rsid first last MASK32
  if i ≤ last then
    if crv.rs i = rsid then (crv.vk i, i) else (0, last + 1)
  else (0, last + 1)

/-- Modelled from the spec: `get_next_rv_variantkey_by_rsid` (declared at
`rsidvar.h:120`, body missing from the sources), per section 4.3.2: advance
`*pos` by one; if the new position is within `[.., last]` and its key equals
`rsid`, return the VariantKey there and that position, otherwise return zero
and `last + 1`.  The key column is only read when the advanced position is
within bounds.  Result: `(return value, final *pos)`. -/
def get_next_rv_variantkey_by_rsid (crv : rsidvar_cols_t) (pos last rsid : Nat) :
    Nat × Nat :=
  let p := pos + 1
  if p ≤ last then
    if crv.rs p = rsid then (crv.vk p, p) else (0, last + 1)
  else (0, last + 1)

/-- Modelled from the spec: `find_vr_rsid_by_variantkey` (declared at
`rsidvar.h:133`, body missing from the sources), per section 4.3.1 applied to
the VKRS shape: run `lower_bound` with the all-ones mask on the VariantKey
key column over `[first, last]`; on a hit return the rsID there and the hit
index as the new `*first`, otherwise zero and `last + 1`.  Result:
`(return value, final *first)`. -/
def find_vr_rsid_by_variantkey (cvr : rsidvar_cols_t) (first last vk : Nat) :
    Nat × Nat :=
  let i := lower_bound cvr.vk vk first last MASK64
  if i ≤ last then
    if cvr.vk i = vk then (cvr.rs i, i) else (0, last + 1)
  else (0, last + 1)

/-- Modelled from the spec: `find_vr_chrompos_range` (declared at
`rsidvar.h:147`, body missing from the sources), per section 4.3.3: build
`vk_min = (chrom << 59) | (pos_min << 31)` and
`vk_max = (chrom << 59) | (pos_max << 31) | 0x7FFFFFFF`, then
`lo = lower_bound(vk_min, *first, *last)` and
`hi = upper_bound(vk_max, lo, *last) - 1` on the VariantKey column.  The
spec's emptiness test `lo > hi` is rendered as `ub ≤ lo` (equivalent over
the integers since `ub = hi + 1 ≥ lo` always holds).  On empty overlap set
`*first = *last + 1` and return 0 leaving `*last` unchanged; otherwise set
`*first = lo`, `*last = hi` and return the rsID at `lo`.  Result:
`(return value, final *first, final *last)`. -/
def find_vr_chrompos_range (cvr : rsidvar_cols_t)
    (first last chrom pos_min pos_max : Nat) : Nat × Nat × Nat :=
  let vk_min := (chrom <<< 59) ||| (pos_min <<< 31)
  let vk_max := (chrom <<< 59) ||| (pos_max <<< 31) ||| 0x7FFFFFFF
  let lo := lower_bound cvr.vk vk_min first last MASK64
  let ub := upper_bound cvr.vk vk_max lo last MASK64
  if ub ≤ lo then (0, last + 1, last)
  else (cvr.rs lo, lo, ub - 1)

/-- Results of `n` successive `get_next_rv_variantkey_by_rsid` calls starting
from cursor `pos`, each call receiving the cursor produced by the previous
one; the list holds each call's `(return value, cursor after the call)`. -/
def next_calls (crv : rsidvar_cols_t) (last rsid : Nat) : Nat → Nat → List (Nat × Nat)
  | 0, _ => []
  | n + 1, pos =>
    let r := get_next_rv_variantkey_by_rsid crv pos last rsid
    r :: next_calls crv last rsid n r.2

/-- Number of indices `j` in the half-open window `[lo, lo + n)` with
`col j = key` (occurrence count of a key in a search window). -/
def countOcc (col : Nat → Nat) (key : Nat) : Nat → Nat → Nat
  | _, 0 => 0
  | lo, n + 1 => (if col lo = key then 1 else 0) + countOcc col key (lo + 1) n

/-- Mutable call state for the frame-effect view of the lookups: the column
view together with the cursor cells the C API reaches through pointers
(`*first` or `*pos`, and `*last` for the range query). -/
structure rv_state where
  cols : rsidvar_cols_t
  first : Nat
  last : Nat

/-- State-passing form of `find_rv_variantkey_by_rsid`: reads the view and
the cursor cells from the state, writes back only the `first` cell. -/
def find_rv_variantkey_by_rsid_st (s : rv_state) (rsid : Nat) : rv_state × Nat :=
  let r := find_rv_variantkey_by_rsid s.cols s.first s.last rsid
  (⟨s.cols, r.2, s.last⟩, r.1)

/-- State-passing form of `get_next_rv_variantkey_by_rsid`: the `first` cell
plays the role of `*pos`; only that cell is written back. -/
def get_next_rv_variantkey_by_rsid_st (s : rv_state) (rsid : Nat) : rv_state × Nat :=
  let r := get_next_rv_variantkey_by_rsid s.cols s.first s.last rsid
  (⟨s.cols, r.2, s.last⟩, r.1)

/-- State-passing form of `find_vr_rsid_by_variantkey`: writes back only the
`first` cell. -/
def find_vr_rsid_by_variantkey_st (s : rv_state) (vk : Nat) : rv_state × Nat :=
  let r := find_vr_rsid_by_variantkey s.cols s.first s.last vk
  (⟨s.cols, r.2, s.last⟩, r.1)

/-- State-passing form of `find_vr_chrompos_range`: writes back the `first`
and `last` cells. -/
def find_vr_chrompos_range_st (s : rv_state) (chrom pos_min pos_max : Nat) :
    rv_state × Nat :=
  let r := find_vr_chrompos_range s.cols s.first s.last chrom pos_min pos_max
  (⟨s.cols, r.2.1, r.2.2⟩, r.1)

/-! Basic properties of the linear scan underlying the search primitives. -/

theorem scanFirst_ge (p : Nat → Bool) (lo n : Nat) : lo ≤ scanFirst p lo n := by
  induction n generalizing lo with
  | zero => exact Nat.le_refl lo
  | succ n ih =>
    simp only [scanFirst]
    split
    · exact Nat.le_refl lo
    · exact Nat.le_trans (Nat.le_succ lo) (ih (lo + 1))

theorem scanFirst_le (p : Nat → Bool) (lo n : Nat) : scanFirst p lo n ≤ lo + n := by
  induction n generalizing lo with
  | zero => exact Nat.le_refl lo
  | succ n ih =>
    simp only [scanFirst]
    split
    · exact Nat.le_add_right lo (n + 1)
    · exact Nat.le_trans (ih (lo + 1)) (Nat.le_of_eq (Nat.succ_add lo n))

theorem scanFirst_min (p : Nat → Bool) (lo n j : Nat) (h1 : lo ≤ j)
    (h2 : j < scanFirst p lo n) : p j = false := by
  induction n generalizing lo with
  | zero =>
    simp only [scanFirst] at h2
    exact absurd h2 (Nat.not_lt.mpr h1)
  | succ n ih =>
    simp only [scanFirst] at h2
    by_cases hp : p lo
    · rw [if_pos hp] at h2
      exact absurd h2 (Nat.not_lt.mpr h1)
    · rw [if_neg hp] at h2
      rcases Nat.eq_or_lt_of_le h1 with heq | hlt
      · rw [heq] at hp; exact Bool.eq_false_iff.mpr hp
      · exact ih (lo + 1) hlt h2

theorem scanFirst_found (p : Nat → Bool) (lo n : Nat)
    (h : scanFirst p lo n < lo + n) : p (scanFirst p lo n) = true := by
  induction n generalizing lo with
  | zero =>
    simp only [scanFirst] at h
    exact absurd h (Nat.lt_irrefl lo)
  | succ n ih =>
    simp only [scanFirst] at h ⊢
    by_cases hp : p lo
    · rw [if_pos hp]; exact hp
    · rw [if_neg hp] at h ⊢
      exact ih (lo + 1) (by rw [Nat.succ_add lo n]; exact h)

theorem scanFirst_le_of_true (p : Nat → Bool) (lo n j : Nat) (h1 : lo ≤ j)
    (h2 : p j = true) : scanFirst p lo n ≤ j := by
  by_contra hcon
  have := scanFirst_min p lo n j h1 (Nat.lt_of_not_le hcon)
  rw [h2] at this
  exact Bool.noConfusion this

theorem scanFirst_congr (p q : Nat → Bool) (lo n : Nat)
    (h : ∀ j, lo ≤ j → j < lo + n → p j = q j) :
    scanFirst p lo n = scanFirst q lo n := by
  induction n generalizing lo with
  | zero => rfl
  | succ n ih =>
    simp only [scanFirst]
    rw [h lo (Nat.le_refl lo) (Nat.lt_add_of_pos_right (Nat.succ_pos n))]
    split
    · rfl
    · exact ih (lo + 1) fun j hj1 hj2 => h j (Nat.le_of_succ_le hj1)
        (by rw [show lo + (n + 1) = lo + 1 + n from (Nat.succ_add lo n).symm]
            exact hj2)

/-! Small arithmetic facts about inclusive search windows, kept in minimal
contexts. -/

theorem window_upper_bound (first0 last j : Nat) (h1 : first0 ≤ j)
    (h2 : j < first0 + (last + 1 - first0)) : j ≤ last := by
  rcases Nat.le_total first0 (last + 1) with hle | hge
  · rw [Nat.add_sub_cancel' hle] at h2
    exact Nat.lt_succ_iff.mp h2
  · rw [Nat.sub_eq_zero_of_le hge, Nat.add_zero] at h2
    exact absurd h2 (Nat.not_lt.mpr h1)

theorem scan_bounds_of_lt (L U last0 : Nat) (hU_le : U ≤ L + (last0 + 1 - L))
    (hlt : L < U) : L ≤ last0 ∧ U ≤ last0 + 1 := by
  rcases Nat.le_total L (last0 + 1) with hle | hge
  · rw [Nat.add_sub_cancel' hle] at hU_le
    exact ⟨Nat.lt_succ_iff.mp (Nat.lt_of_lt_of_le hlt hU_le), hU_le⟩
  · rw [Nat.sub_eq_zero_of_le hge, Nat.add_zero] at hU_le
    exact absurd hU_le (Nat.not_le.mpr hlt)

theorem lt_of_le_pred (i U : Nat) (h1 : 0 < U) (h2 : i ≤ U - 1) : i < U :=
  Nat.lt_of_le_of_lt h2 (Nat.sub_lt h1 Nat.one_pos)

theorem le_of_pred_lt (i U : Nat) (h : U - 1 < i) : U ≤ i :=
  Nat.le_of_pred_lt h

theorem scan_found_lt (lo hi s : Nat) (h1 : lo ≤ s) (h2 : s ≤ hi) :
    s < lo + (hi + 1 - lo) := by
  rw [Nat.add_sub_cancel' (Nat.le_trans (Nat.le_trans h1 h2) (Nat.le_succ hi))]
  exact Nat.lt_succ_of_le h2

theorem sub_one_lt_self (i n : Nat) (h : i < n) : n - 1 < n :=
  Nat.sub_lt (Nat.lt_of_le_of_lt (Nat.zero_le i) h) Nat.one_pos

theorem le_sub_one_of_lt (i n : Nat) (h : i < n) : i ≤ n - 1 :=
  Nat.le_pred_of_lt h

/-! Definitional equation forms of the lookup operations (the `let`
bindings zeta-reduced), convenient for rewriting. -/

theorem find_rv_eq_def (crv : rsidvar_cols_t) (first last rsid : Nat) :
    find_rv_variantkey_by_rsid crv first last rsid =
      if lower_bound crv.rs rsid first last MASK32 ≤ last then
        if crv.rs (lower_bound crv.rs rsid first last MASK32) = rsid then
          (crv.vk (lower_bound crv.rs rsid first last MASK32),
            lower_bound crv.rs rsid first last MASK32)
        else (0, last + 1)
      else (0, last + 1) := rfl

theorem get_next_eq_def (crv : rsidvar_cols_t) (pos last rsid : Nat) :
    get_next_rv_variantkey_by_rsid crv pos last rsid =
      if pos + 1 ≤ last then
        if crv.rs (pos + 1) = rsid then (crv.vk (pos + 1), pos + 1)
        else (0, last + 1)
      else (0, last + 1) := rfl

theorem find_vr_eq_def (cvr : rsidvar_cols_t) (first last vk : Nat) :
    find_vr_rsid_by_variantkey cvr first last vk =
      if lower_bound cvr.vk vk first last MASK64 ≤ last then
        if cvr.vk (lower_bound cvr.vk vk first last MASK64) = vk then
          (cvr.rs (lower_bound cvr.vk vk first last MASK64),
            lower_bound cvr.vk vk first last MASK64)
        else (0, last + 1)
      else (0, last + 1) := rfl

theorem chrompos_eq_def (cvr : rsidvar_cols_t)
    (first last chrom pos_min pos_max : Nat) :
    find_vr_chrompos_range cvr first last chrom pos_min pos_max =
      if upper_bound cvr.vk ((chrom <<< 59) ||| (pos_max <<< 31) ||| 0x7FFFFFFF)
            (lower_bound cvr.vk ((chrom <<< 59) ||| (pos_min <<< 31))
              first last MASK64) last MASK64
          ≤ lower_bound cvr.vk ((chrom <<< 59) ||| (pos_min <<< 31))
              first last MASK64 then
        (0, last + 1, last)
      else
        (cvr.rs (lower_bound cvr.vk ((chrom <<< 59) ||| (pos_min <<< 31))
            first last MASK64),
          lower_bound cvr.vk ((chrom <<< 59) ||| (pos_min <<< 31)) first last MASK64,
          upper_bound cvr.vk ((chrom <<< 59) ||| (pos_max <<< 31) ||| 0x7FFFFFFF)
            (lower_bound cvr.vk ((chrom <<< 59) ||| (pos_min <<< 31))
              first last MASK64) last MASK64 - 1) := rfl

/-! Mask arithmetic: with the all-ones mask of a column's width, masking is
the identity on width-bounded values, so the masked comparisons of the
search primitives reduce to plain comparisons over the search window. -/

theorem and_mask_of_lt {x w : Nat} (h : x < 2 ^ w) : x &&& (2 ^ w - 1) = x :=
  Nat.and_pow_two_sub_one_of_lt_two_pow h

theorem lower_bound_ge (col : Nat → Nat) (key lo hi mask : Nat) :
    lo ≤ lower_bound col key lo hi mask := scanFirst_ge _ _ _

theorem upper_bound_ge (col : Nat → Nat) (key lo hi mask : Nat) :
    lo ≤ upper_bound col key lo hi mask := scanFirst_ge _ _ _

theorem lower_bound_le (col : Nat → Nat) (key lo hi mask : Nat) :
    lower_bound col key lo hi mask ≤ lo + (hi + 1 - lo) := scanFirst_le _ _ _

theorem upper_bound_le (col : Nat → Nat) (key lo hi mask : Nat) :
    upper_bound col key lo hi mask ≤ lo + (hi + 1 - lo) := scanFirst_le _ _ _

theorem lower_bound_strip (col : Nat → Nat) (key lo hi w : Nat) (hk : key < 2 ^ w)
    (hc : ∀ j, lo ≤ j → j ≤ hi → col j < 2 ^ w) :
    lower_bound col key lo hi (2 ^ w - 1) =
      scanFirst (fun i => decide (key ≤ col i)) lo (hi + 1 - lo) := by
  unfold lower_bound
  apply scanFirst_congr
  intro j hj1 hj2
  have hj : j ≤ hi := window_upper_bound lo hi j hj1 hj2
  simp only [and_mask_of_lt hk, and_mask_of_lt (hc j hj1 hj)]

theorem upper_bound_strip (col : Nat → Nat) (key lo hi w : Nat) (hk : key < 2 ^ w)
    (hc : ∀ j, lo ≤ j → j ≤ hi → col j < 2 ^ w) :
    upper_bound col key lo hi (2 ^ w - 1) =
      scanFirst (fun i => decide (key < col i)) lo (hi + 1 - lo) := by
  unfold upper_bound
  apply scanFirst_congr
  intro j hj1 hj2
  have hj : j ≤ hi := window_upper_bound lo hi j hj1 hj2
  simp only [and_mask_of_lt hk, and_mask_of_lt (hc j hj1 hj)]

theorem lower_bound_min_lt (col : Nat → Nat) (key lo hi w mask : Nat)
    (hmask : mask = 2 ^ w - 1) (hk : key < 2 ^ w)
    (hc : ∀ j, lo ≤ j → j ≤ hi → col j < 2 ^ w)
    (j : Nat) (h1 : lo ≤ j) (h2 : j < lower_bound col key lo hi mask) :
    col j < key := by
  subst hmask
  rw [lower_bound_strip col key lo hi w hk hc] at h2
  exact Nat.lt_of_not_le (of_decide_eq_false (scanFirst_min _ _ _ j h1 h2))

theorem lower_bound_found_le (col : Nat → Nat) (key lo hi w mask : Nat)
    (hmask : mask = 2 ^ w - 1) (hk : key < 2 ^ w)
    (hc : ∀ j, lo ≤ j → j ≤ hi → col j < 2 ^ w)
    (h : lower_bound col key lo hi mask ≤ hi) :
    key ≤ col (lower_bound col key lo hi mask) := by
  subst hmask
  rw [lower_bound_strip col key lo hi w hk hc] at h ⊢
  have hge := scanFirst_ge (fun i => decide (key ≤ col i)) lo (hi + 1 - lo)
  exact of_decide_eq_true (scanFirst_found (fun i => decide (key ≤ col i)) lo
    (hi + 1 - lo) (scan_found_lt lo hi _ hge h))

theorem upper_bound_min_le (col : Nat → Nat) (key lo hi w mask : Nat)
    (hmask : mask = 2 ^ w - 1) (hk : key < 2 ^ w)
    (hc : ∀ j, lo ≤ j → j ≤ hi → col j < 2 ^ w)
    (j : Nat) (h1 : lo ≤ j) (h2 : j < upper_bound col key lo hi mask) :
    col j ≤ key := by
  subst hmask
  rw [upper_bound_strip col key lo hi w hk hc] at h2
  exact Nat.le_of_not_lt (of_decide_eq_false (scanFirst_min _ _ _ j h1 h2))

theorem upper_bound_found_lt (col : Nat → Nat) (key lo hi w mask : Nat)
    (hmask : mask = 2 ^ w - 1) (hk : key < 2 ^ w)
    (hc : ∀ j, lo ≤ j → j ≤ hi → col j < 2 ^ w)
    (h : upper_bound col key lo hi mask ≤ hi) :
    key < col (upper_bound col key lo hi mask) := by
  subst hmask
  rw [upper_bound_strip col key lo hi w hk hc] at h ⊢
  have hge := scanFirst_ge (fun i => decide (key < col i)) lo (hi + 1 - lo)
  exact of_decide_eq_true (scanFirst_found (fun i => decide (key < col i)) lo
    (hi + 1 - lo) (scan_found_lt lo hi _ hge h))

/-- Branch analysis of the range query over an abstract pair of cut points
`L ≤ U`: with the four window facts delivered by the two binary searches,
the returned triple `r` bounds exactly the matching rows. -/
theorem range_window_core (cvr : rsidvar_cols_t) (first0 last0 vmin vmax L U : Nat)
    (hsort : ∀ j, j < cvr.nrows → ∀ i, i ≤ j → cvr.vk i ≤ cvr.vk j)
    (hlast : last0 < cvr.nrows)
    (hL_ge : first0 ≤ L)
    (hU_ge : L ≤ U)
    (hU_le : U ≤ L + (last0 + 1 - L))
    (hF1 : ∀ j, first0 ≤ j → j < L → cvr.vk j < vmin)
    (hF4 : L ≤ last0 → vmin ≤ cvr.vk L)
    (hF2 : ∀ j, L ≤ j → j < U → cvr.vk j ≤ vmax)
    (hF3 : U ≤ last0 → vmax < cvr.vk U)
    (r : Nat × Nat × Nat)
    (hr : r = if U ≤ L then (0, last0 + 1, last0) else (cvr.rs L, L, U - 1)) :
    (∀ i, r.2.1 ≤ i → i ≤ r.2.2 → vmin ≤ cvr.vk i ∧ cvr.vk i ≤ vmax) ∧
    (∀ i, first0 ≤ i → i ≤ last0 → (i < r.2.1 ∨ r.2.2 < i) →
      ¬(vmin ≤ cvr.vk i ∧ cvr.vk i ≤ vmax)) ∧
    ((∃ i, first0 ≤ i ∧ i ≤ last0 ∧ vmin ≤ cvr.vk i ∧ cvr.vk i ≤ vmax) →
      r.1 = cvr.rs r.2.1) := by
  by_cases hbr : U ≤ L
  · rw [if_pos hbr] at hr
    subst hr
    have hnomatch : ∀ i, first0 ≤ i → i ≤ last0 →
        ¬(vmin ≤ cvr.vk i ∧ cvr.vk i ≤ vmax) := by
      rintro i h1 h2 ⟨hm1, hm2⟩
      rcases Nat.lt_or_ge i L with hlt | hge
      · exact absurd hm1 (Nat.not_le.mpr (hF1 i h1 hlt))
      · have hUi : U ≤ i := Nat.le_trans hbr hge
        have h3 := hF3 (Nat.le_trans hUi h2)
        have h4 := hsort i (Nat.lt_of_le_of_lt h2 hlast) U hUi
        exact absurd hm2 (Nat.not_le.mpr (Nat.lt_of_lt_of_le h3 h4))
    refine ⟨?_, ?_, ?_⟩
    · intro i hi1 hi2
      have hi1b : last0 + 1 ≤ i := hi1
      have hi2b : i ≤ last0 := hi2
      exact absurd (Nat.le_trans hi1b hi2b) (Nat.not_succ_le_self last0)
    · intro i h1 h2 _
      exact hnomatch i h1 h2
    · rintro ⟨i, h1, h2, hm1, hm2⟩
      exact absurd ⟨hm1, hm2⟩ (hnomatch i h1 h2)
  · rw [if_neg hbr] at hr
    subst hr
    have hlt : L < U := Nat.not_le.mp hbr
    obtain ⟨hL_last, hU_last1⟩ := scan_bounds_of_lt L U last0 hU_le hlt
    have hUpos : 0 < U := Nat.lt_of_le_of_lt (Nat.zero_le L) hlt
    refine ⟨?_, ?_, ?_⟩
    · intro i hi1 hi2
      have hi1b : L ≤ i := hi1
      have hi2b : i ≤ U - 1 := hi2
      have hiU : i < U := lt_of_le_pred i U hUpos hi2b
      have hi_last : i ≤ last0 :=
        Nat.le_of_lt_succ (Nat.lt_of_lt_of_le hiU hU_last1)
      constructor
      · exact Nat.le_trans (hF4 hL_last)
          (hsort i (Nat.lt_of_le_of_lt hi_last hlast) L hi1b)
      · exact hF2 i hi1b hiU
    · intro i h1 h2 hout
      rintro ⟨hm1, hm2⟩
      have hout2 : i < L ∨ U - 1 < i := hout
      rcases hout2 with hlt2 | hgt2
      · exact absurd hm1 (Nat.not_le.mpr (hF1 i h1 hlt2))
      · have hUi : U ≤ i := le_of_pred_lt i U hgt2
        have h3 := hF3 (Nat.le_trans hUi h2)
        have h4 := hsort i (Nat.lt_of_le_of_lt h2 hlast) U hUi
        exact absurd hm2 (Nat.not_le.mpr (Nat.lt_of_lt_of_le h3 h4))
    · intro _
      rfl

/-- VariantKey window prefixes stay below `2 ^ 64` for a chromosome of at
most 31 and a position below `2 ^ 28`. -/
theorem vk_prefix_lt (chrom p : Nat) (hc : chrom ≤ 31) (hp : p < 2 ^ 28) :
    (chrom <<< 59) ||| (p <<< 31) < 2 ^ 64 := by
  apply Nat.or_lt_two_pow
  · rw [Nat.shiftLeft_eq]
    calc chrom * 2 ^ 59 ≤ 31 * 2 ^ 59 := Nat.mul_le_mul_right _ hc
      _ < 2 ^ 64 := by norm_num
  · rw [Nat.shiftLeft_eq]
    calc p * 2 ^ 31 ≤ (2 ^ 28 - 1) * 2 ^ 31 :=
        Nat.mul_le_mul_right _ (Nat.le_pred_of_lt hp)
      _ < 2 ^ 64 := by norm_num

/-- The upper VariantKey window bound also stays below `2 ^ 64`. -/
theorem vk_max_lt (chrom p : Nat) (hc : chrom ≤ 31) (hp : p < 2 ^ 28) :
    (chrom <<< 59) ||| (p <<< 31) ||| 0x7FFFFFFF < 2 ^ 64 :=
  Nat.or_lt_two_pow (vk_prefix_lt chrom p hc hp) (by norm_num)

/-- Core lemma for the RSVK exact-match lookup: on a sorted key column, when
the key occurs in the window, the lookup returns the value stored at the
smallest occurrence index, together with that index as the new cursor. -/
theorem find_rv_first_occ (crv : rsidvar_cols_t) (first0 last rsid : Nat)
    (hsort : ∀ j, j < crv.nrows → ∀ i, i ≤ j → crv.rs i ≤ crv.rs j)
    (hlast : last < crv.nrows)
    (hw : ∀ i, i < crv.nrows → crv.rs i < 2 ^ 32)
    (hr : rsid < 2 ^ 32)
    (hex : ∃ j, first0 ≤ j ∧ j ≤ last ∧ crv.rs j = rsid) :
    ∃ i0, find_rv_variantkey_by_rsid crv first0 last rsid = (crv.vk i0, i0) ∧
      first0 ≤ i0 ∧ i0 ≤ last ∧ crv.rs i0 = rsid ∧
      ∀ j, first0 ≤ j → j < i0 → crv.rs j ≠ rsid := by
  obtain ⟨j, hj1, hj2, hj3⟩ := hex
  have hstrip : lower_bound crv.rs rsid first0 last MASK32 =
      scanFirst (fun i => decide (rsid ≤ crv.rs i)) first0 (last + 1 - first0) := by
    unfold MASK32
    exact lower_bound_strip crv.rs rsid first0 last 32 hr
      (fun j2 _ h2 => hw j2 (Nat.lt_of_le_of_lt h2 hlast))
  obtain ⟨i0, hdef, hge, hmin, hfnd⟩ :
      ∃ i0, scanFirst (fun i => decide (rsid ≤ crv.rs i)) first0
          (last + 1 - first0) = i0 ∧ first0 ≤ i0 ∧
        (∀ j2, first0 ≤ j2 → j2 < i0 → ¬(rsid ≤ crv.rs j2)) ∧
        (i0 < first0 + (last + 1 - first0) → rsid ≤ crv.rs i0) :=
    ⟨_, rfl, scanFirst_ge _ _ _,
      fun j2 ha hb => of_decide_eq_false (scanFirst_min _ _ _ j2 ha hb),
      fun hlt => of_decide_eq_true (scanFirst_found _ _ _ hlt)⟩
  rw [hdef] at hstrip
  have hle_j : i0 ≤ j := by
    rcases Nat.lt_or_ge j i0 with hlt | hge2
    · exact absurd (show rsid ≤ crv.rs j by rw [hj3]) (hmin j hj1 hlt)
    · exact hge2
  have hi0last : i0 ≤ last := Nat.le_trans hle_j hj2
  have hfound : rsid ≤ crv.rs i0 := hfnd (scan_found_lt first0 last i0 hge hi0last)
  have hle_rs : crv.rs i0 ≤ rsid := by
    have h5 := hsort j (Nat.lt_of_le_of_lt hj2 hlast) i0 hle_j
    rw [hj3] at h5
    exact h5
  have heq0 : crv.rs i0 = rsid := Nat.le_antisymm hle_rs hfound
  refine ⟨i0, ?_, hge, hi0last, heq0, ?_⟩
  · rw [find_rv_eq_def, hstrip, if_pos hi0last, if_pos heq0]
  · intro j2 h1 h2 heq
    exact hmin j2 h1 h2 (by rw [heq])

/-- Core lemma for the VKRS exact-match lookup, the mirror image of
`find_rv_first_occ` with the VariantKey column as key and the rsID column as
value. -/
theorem find_vr_first_occ (cvr : rsidvar_cols_t) (first0 last vk : Nat)
    (hsort : ∀ j, j < cvr.nrows → ∀ i, i ≤ j → cvr.vk i ≤ cvr.vk j)
    (hlast : last < cvr.nrows)
    (hw : ∀ i, i < cvr.nrows → cvr.vk i < 2 ^ 64)
    (hv : vk < 2 ^ 64)
    (hex : ∃ j, first0 ≤ j ∧ j ≤ last ∧ cvr.vk j = vk) :
    ∃ i0, find_vr_rsid_by_variantkey cvr first0 last vk = (cvr.rs i0, i0) ∧
      first0 ≤ i0 ∧ i0 ≤ last ∧ cvr.vk i0 = vk ∧
      ∀ j, first0 ≤ j → j < i0 → cvr.vk j ≠ vk := by
  obtain ⟨j, hj1, hj2, hj3⟩ := hex
  have hstrip : lower_bound cvr.vk vk first0 last MASK64 =
      scanFirst (fun i => decide (vk ≤ cvr.vk i)) first0 (last + 1 - first0) := by
    unfold MASK64
    exact lower_bound_strip cvr.vk vk first0 last 64 hv
      (fun j2 _ h2 => hw j2 (Nat.lt_of_le_of_lt h2 hlast))
  obtain ⟨i0, hdef, hge, hmin, hfnd⟩ :
      ∃ i0, scanFirst (fun i => decide (vk ≤ cvr.vk i)) first0
          (last + 1 - first0) = i0 ∧ first0 ≤ i0 ∧
        (∀ j2, first0 ≤ j2 → j2 < i0 → ¬(vk ≤ cvr.vk j2)) ∧
        (i0 < first0 + (last + 1 - first0) → vk ≤ cvr.vk i0) :=
    ⟨_, rfl, scanFirst_ge _ _ _,
      fun j2 ha hb => of_decide_eq_false (scanFirst_min _ _ _ j2 ha hb),
      fun hlt => of_decide_eq_true (scanFirst_found _ _ _ hlt)⟩
  rw [hdef] at hstrip
  have hle_j : i0 ≤ j := by
    rcases Nat.lt_or_ge j i0 with hlt | hge2
    · exact absurd (show vk ≤ cvr.vk j by rw [hj3]) (hmin j hj1 hlt)
    · exact hge2
  have hi0last : i0 ≤ last := Nat.le_trans hle_j hj2
  have hfound : vk ≤ cvr.vk i0 := hfnd (scan_found_lt first0 last i0 hge hi0last)
  have hle_vk : cvr.vk i0 ≤ vk := by
    have h5 := hsort j (Nat.lt_of_le_of_lt hj2 hlast) i0 hle_j
    rw [hj3] at h5
    exact h5
  have heq0 : cvr.vk i0 = vk := Nat.le_antisymm hle_vk hfound
  refine ⟨i0, ?_, hge, hi0last, heq0, ?_⟩
  · rw [find_vr_eq_def, hstrip, if_pos hi0last, if_pos heq0]
  · intro j2 h1 h2 heq
    exact hmin j2 h1 h2 (by rw [heq])

/-! Counting occurrences in a window. -/

theorem countOcc_split (col : Nat → Nat) (key : Nat) (m n : Nat) :
    ∀ lo, countOcc col key lo (m + n) =
      countOcc col key lo m + countOcc col key (lo + m) n := by
  induction m with
  | zero =>
    intro lo
    rw [Nat.zero_add, Nat.add_zero]
    simp [countOcc]
  | succ m ih =>
    intro lo
    rw [show m + 1 + n = m + n + 1 from Nat.succ_add m n]
    simp only [countOcc]
    rw [ih (lo + 1)]
    rw [show lo + (m + 1) = lo + 1 + m from (Nat.succ_add lo m).symm]
    exact (Nat.add_assoc _ _ _).symm

theorem countOcc_eq_zero (col : Nat → Nat) (key : Nat) (n : Nat) :
    ∀ lo, (∀ j, lo ≤ j → j < lo + n → col j ≠ key) →
      countOcc col key lo n = 0 := by
  induction n with
  | zero => intro lo _; rfl
  | succ n ih =>
    intro lo h
    simp only [countOcc]
    rw [if_neg (h lo (Nat.le_refl lo) (Nat.lt_add_of_pos_right (Nat.succ_pos n)))]
    rw [ih (lo + 1) fun j hj1 hj2 => h j (Nat.le_of_succ_le hj1)
      (by rw [show lo + (n + 1) = lo + 1 + n from (Nat.succ_add lo n).symm]
          exact hj2)]

theorem countOcc_eq_full (col : Nat → Nat) (key : Nat) (n : Nat) :
    ∀ lo, (∀ j, lo ≤ j → j < lo + n → col j = key) →
      countOcc col key lo n = n := by
  induction n with
  | zero => intro lo _; rfl
  | succ n ih =>
    intro lo h
    simp only [countOcc]
    rw [if_pos (h lo (Nat.le_refl lo) (Nat.lt_add_of_pos_right (Nat.succ_pos n)))]
    rw [ih (lo + 1) fun j hj1 hj2 => h j (Nat.le_of_succ_le hj1)
      (by rw [show lo + (n + 1) = lo + 1 + n from (Nat.succ_add lo n).symm]
          exact hj2)]
    exact Nat.add_comm 1 n

theorem countOcc_pos (col : Nat → Nat) (key : Nat) (n : Nat) :
    ∀ lo, 0 < countOcc col key lo n →
      ∃ j, lo ≤ j ∧ j < lo + n ∧ col j = key := by
  induction n with
  | zero => intro lo h; simp [countOcc] at h
  | succ n ih =>
    intro lo h
    simp only [countOcc] at h
    by_cases hc : col lo = key
    · exact ⟨lo, Nat.le_refl lo, Nat.lt_add_of_pos_right (Nat.succ_pos n), hc⟩
    · rw [if_neg hc, Nat.zero_add] at h
      obtain ⟨j, hj1, hj2, hj3⟩ := ih (lo + 1) h
      rw [Nat.succ_add lo n] at hj2
      exact ⟨j, Nat.le_of_succ_le hj1, hj2, hj3⟩

/-! Iterating `get_next_rv_variantkey_by_rsid` along a contiguous block of
duplicate keys. -/

theorem next_calls_block (crv : rsidvar_cols_t) (last rsid il : Nat) :
    ∀ m p, p + m = il → il ≤ last →
      (∀ j, p ≤ j → j ≤ il → crv.rs j = rsid) →
      (il + 1 ≤ last → crv.rs (il + 1) ≠ rsid) →
      next_calls crv last rsid (m + 1) p =
        ((List.range' (p + 1) m).map fun j => (crv.vk j, j)) ++ [(0, last + 1)] := by
  intro m
  induction m with
  | zero =>
    intro p hp _ _ hstop
    have hpil : p = il := hp
    subst hpil
    have hnext : get_next_rv_variantkey_by_rsid crv p last rsid = (0, last + 1) := by
      rw [get_next_eq_def]
      by_cases h1 : p + 1 ≤ last
      · rw [if_pos h1, if_neg (hstop h1)]
      · rw [if_neg h1]
    simp [next_calls, hnext]
  | succ m ih =>
    intro p hp hil hocc hstop
    have hp1il : p + 1 ≤ il :=
      Nat.le_trans (Nat.add_le_add_left (Nat.succ_le_succ (Nat.zero_le m)) p)
        (Nat.le_of_eq hp)
    have hnext : get_next_rv_variantkey_by_rsid crv p last rsid =
        (crv.vk (p + 1), p + 1) := by
      rw [get_next_eq_def, if_pos (Nat.le_trans hp1il hil),
        if_pos (hocc (p + 1) (Nat.le_succ p) hp1il)]
    have hstep : next_calls crv last rsid (m + 1 + 1) p =
        get_next_rv_variantkey_by_rsid crv p last rsid ::
          next_calls crv last rsid (m + 1)
            (get_next_rv_variantkey_by_rsid crv p last rsid).2 := rfl
    rw [hstep, hnext]
    show (crv.vk (p + 1), p + 1) :: next_calls crv last rsid (m + 1) (p + 1) = _
    rw [ih (p + 1) ((Nat.succ_add p m).trans hp) hil
      (fun j hj1 hj2 => hocc j (Nat.le_of_succ_le hj1) hj2) hstop]
    rw [List.range'_succ]
    simp

/-! Concrete tables used by the witnesses. -/

/-- Concrete RSVK view: rsID key column sorted ascending with a duplicate
block, rows (1,10), (5,20), (5,25), (7,30). -/
def exampleRV : rsidvar_cols_t :=
  ⟨(fun i => [10, 20, 25, 30].getD i 0), (fun i => [1, 5, 5, 7].getD i 0), 4⟩

/-- Concrete VKRS view: VariantKey key column sorted ascending, rows
(1,100), (2,200), (2147483653,300). -/
def exampleVR : rsidvar_cols_t :=
  ⟨(fun i => [1, 2, 2147483653].getD i 0), (fun i => [100, 200, 300].getD i 0), 3⟩

/-- C1: on an RSVK view whose key column is sorted ascending, for every
window `[first0, last]` with `last < nrows` and every rsID occurring in the
window, `find_rv_variantkey_by_rsid` writes to `*first` the smallest window
index holding that rsID and returns the VariantKey value stored there. -/
theorem find_rv_variantkey_by_rsid_first_match
    (crv : rsidvar_cols_t) (first0 last rsid : Nat)
    (hsort : ∀ j, j < crv.nrows → ∀ i, i ≤ j → crv.rs i ≤ crv.rs j)
    (hlast : last < crv.nrows)
    (hw : ∀ i, i < crv.nrows → crv.rs i < 2 ^ 32)
    (hr : rsid < 2 ^ 32)
    (j : Nat) (hj1 : first0 ≤ j) (hj2 : j ≤ last) (hj3 : crv.rs j = rsid) :
    first0 ≤ (find_rv_variantkey_by_rsid crv first0 last rsid).2 ∧
    (find_rv_variantkey_by_rsid crv first0 last rsid).2 ≤ last ∧
    crv.rs (find_rv_variantkey_by_rsid crv first0 last rsid).2 = rsid ∧
    (find_rv_variantkey_by_rsid crv first0 last rsid).1 =
      crv.vk (find_rv_variantkey_by_rsid crv first0 last rsid).2 ∧
    ∀ i, first0 ≤ i → i < (find_rv_variantkey_by_rsid crv first0 last rsid).2 →
      crv.rs i ≠ rsid := by
  obtain ⟨i0, heq, h1, h2, h3, h4⟩ :=
    find_rv_first_occ crv first0 last rsid hsort hlast hw hr ⟨j, hj1, hj2, hj3⟩
  rw [heq]
  exact ⟨h1, h2, h3, rfl, h4⟩

/-- Witness for C1: searching rsID 5 over the full `exampleRV` table; the
duplicate block starts at index 1. -/
theorem find_rv_variantkey_by_rsid_first_match_witness :
    0 ≤ (find_rv_variantkey_by_rsid exampleRV 0 3 5).2 ∧
    (find_rv_variantkey_by_rsid exampleRV 0 3 5).2 ≤ 3 ∧
    exampleRV.rs (find_rv_variantkey_by_rsid exampleRV 0 3 5).2 = 5 ∧
    (find_rv_variantkey_by_rsid exampleRV 0 3 5).1 =
      exampleRV.vk (find_rv_variantkey_by_rsid exampleRV 0 3 5).2 ∧
    ∀ i, 0 ≤ i → i < (find_rv_variantkey_by_rsid exampleRV 0 3 5).2 →
      exampleRV.rs i ≠ 5 :=
  find_rv_variantkey_by_rsid_first_match exampleRV 0 3 5 (by decide) (by decide)
    (by decide) (by decide) 1 (by decide) (by decide) (by decide)

/-- C3: `get_next_rv_variantkey_by_rsid` advances the cursor by one; if the
advanced position is within `[.., last]` and still holds the searched rsID it
returns the VariantKey there with the advanced cursor, otherwise it returns
zero with cursor `last + 1`. -/
theorem get_next_rv_variantkey_by_rsid_step
    (crv : rsidvar_cols_t) (pos last rsid : Nat) :
    get_next_rv_variantkey_by_rsid crv pos last rsid =
      if pos + 1 ≤ last ∧ crv.rs (pos + 1) = rsid then (crv.vk (pos + 1), pos + 1)
      else (0, last + 1) := by
  rw [get_next_eq_def]
  by_cases h1 : pos + 1 ≤ last
  · by_cases h2 : crv.rs (pos + 1) = rsid
    · rw [if_pos h1, if_pos h2, if_pos ⟨h1, h2⟩]
    · rw [if_pos h1, if_neg h2, if_neg (fun hand => h2 hand.2)]
  · rw [if_neg h1, if_neg (fun hand => h1 hand.1)]

/-- C5: when the searched key occurs nowhere in `[first0, last]`, find-first
writes `last + 1` to `*first` and returns the zero value of the value type,
on both the RSVK shape (zero VariantKey) and the VKRS shape (zero rsID);
absence is thus signalled exactly by cursor past `last` plus zero return. -/
theorem find_first_not_found
    (crv cvr : rsidvar_cols_t) (first_r last_r first_v last_v rsid vkey : Nat)
    (_hlast_r : last_r < crv.nrows) (_hlast_v : last_v < cvr.nrows)
    (habs_r : ∀ j, first_r ≤ j → j ≤ last_r → crv.rs j ≠ rsid)
    (habs_v : ∀ j, first_v ≤ j → j ≤ last_v → cvr.vk j ≠ vkey) :
    find_rv_variantkey_by_rsid crv first_r last_r rsid = (0, last_r + 1) ∧
    find_vr_rsid_by_variantkey cvr first_v last_v vkey = (0, last_v + 1) := by
  constructor
  · rw [find_rv_eq_def]
    by_cases h : lower_bound crv.rs rsid first_r last_r MASK32 ≤ last_r
    · rw [if_pos h, if_neg (habs_r _ (lower_bound_ge _ _ _ _ _) h)]
    · rw [if_neg h]
  · rw [find_vr_eq_def]
    by_cases h : lower_bound cvr.vk vkey first_v last_v MASK64 ≤ last_v
    · rw [if_pos h, if_neg (habs_v _ (lower_bound_ge _ _ _ _ _) h)]
    · rw [if_neg h]

/-- Witness for C5: rsID 2 and VariantKey 3 occur nowhere in the example
tables, so both lookups report cursor 4 resp. 3 with zero value. -/
theorem find_first_not_found_witness :
    find_rv_variantkey_by_rsid exampleRV 0 3 2 = (0, 3 + 1) ∧
    find_vr_rsid_by_variantkey exampleVR 0 2 3 = (0, 2 + 1) :=
  find_first_not_found exampleRV exampleVR 0 3 0 2 2 3 (by decide) (by decide)
    (by decide) (by decide)

/-- C7: calling next-by-key with the EXHAUSTED cursor `last + 1` returns
zero and leaves the cursor at `last + 1` again (idempotent), and the result
is the same for every column view, so no key-column entry beyond index
`last` influences it. -/
theorem get_next_rv_variantkey_by_rsid_exhausted
    (crv : rsidvar_cols_t) (last rsid : Nat) :
    get_next_rv_variantkey_by_rsid crv (last + 1) last rsid = (0, last + 1) ∧
    (∀ c2 : rsidvar_cols_t,
      get_next_rv_variantkey_by_rsid c2 (last + 1) last rsid = (0, last + 1)) := by
  refine ⟨?_, fun c2 => ?_⟩
  · rw [get_next_eq_def,
      if_neg (fun h => Nat.not_succ_le_self last (Nat.le_of_succ_le h))]
  · rw [get_next_eq_def,
      if_neg (fun h => Nat.not_succ_le_self last (Nat.le_of_succ_le h))]

/-- C9: every lookup operation, run in state-passing form over the caller
visible state, leaves the column view (key column, value column and row
count) unchanged; the only state cells it writes are the cursor cells. -/
theorem lookups_preserve_view (s : rv_state) (rsid vkey chrom pmin pmax : Nat) :
    (find_rv_variantkey_by_rsid_st s rsid).1.cols = s.cols ∧
    (get_next_rv_variantkey_by_rsid_st s rsid).1.cols = s.cols ∧
    (find_vr_rsid_by_variantkey_st s vkey).1.cols = s.cols ∧
    (find_vr_chrompos_range_st s chrom pmin pmax).1.cols = s.cols :=
  ⟨rfl, rfl, rfl, rfl⟩

theorem block_count_add (col : Nat → Nat) (key first0 a b c k : Nat)
    (hz1 : ∀ m, first0 ≤ m → m < first0 + a → col m ≠ key)
    (hfull : ∀ m, first0 + a ≤ m → m < first0 + a + (b + 1) → col m = key)
    (hz2 : ∀ m, first0 + a + (b + 1) ≤ m → m < first0 + a + (b + 1) + c →
      col m ≠ key)
    (hcount : countOcc col key first0 (a + ((b + 1) + c)) = k) :
    b + 1 = k := by
  rw [countOcc_split, countOcc_split] at hcount
  rw [countOcc_eq_zero col key a first0 hz1] at hcount
  rw [countOcc_eq_full col key (b + 1) (first0 + a) hfull] at hcount
  rw [countOcc_eq_zero col key c (first0 + a + (b + 1)) hz2] at hcount
  rw [Nat.zero_add, Nat.add_zero] at hcount
  exact hcount

theorem window_len_eq (first0 a b c : Nat) :
    first0 + a + b + c + 1 - first0 = a + ((b + 1) + c) := by
  have e : first0 + a + b + c + 1 = first0 + (a + ((b + 1) + c)) := by
    rw [Nat.succ_add b c, Nat.add_assoc (first0 + a) b c,
      Nat.add_assoc first0 a (b + c)]
    rfl
  rw [e, Nat.add_sub_cancel_left]

theorem occ_char (col : Nat → Nat) (key first0 last i0 il nrows : Nat)
    (hsort : ∀ j, j < nrows → ∀ i, i ≤ j → col i ≤ col j)
    (hlast : last < nrows)
    (h1 : first0 ≤ i0) (h2 : i0 ≤ last) (h3 : col i0 = key)
    (h4 : ∀ j, first0 ≤ j → j < i0 → col j ≠ key)
    (hil_rs : col il = key) (hil_le : il ≤ last)
    (hmax : ∀ m, first0 ≤ m → m ≤ last → col m = key → m ≤ il) :
    ∀ m, first0 ≤ m → m ≤ last → (col m = key ↔ i0 ≤ m ∧ m ≤ il) := by
  intro m hm1 hm2
  constructor
  · intro hm3
    refine ⟨?_, hmax m hm1 hm2 hm3⟩
    by_contra hcon
    exact h4 m hm1 (Nat.lt_of_not_le hcon) hm3
  · rintro ⟨hma, hmb⟩
    have hub : col m ≤ col il :=
      hsort il (Nat.lt_of_le_of_lt hil_le hlast) m hmb
    have hlb : col i0 ≤ col m :=
      hsort m (Nat.lt_of_le_of_lt hm2 hlast) i0 hma
    rw [h3] at hlb
    rw [hil_rs] at hub
    exact Nat.le_antisymm hub hlb

/-- C4: if the searched rsID occurs exactly `k ≥ 1` times in the window,
find-first positions the cursor on the first duplicate and the sequence of
`k` follow-up next calls yields the remaining `k - 1` stored VariantKeys in
stored order followed by a not-found result (zero value, cursor
`last + 1`); so find-first plus `k - 1` next calls give the `k` values and
the `k`-th next call reports not-found. -/
theorem find_then_next_streams_duplicates
    (crv : rsidvar_cols_t) (first0 last rsid k : Nat)
    (hsort : ∀ j, j < crv.nrows → ∀ i, i ≤ j → crv.rs i ≤ crv.rs j)
    (hlast : last < crv.nrows)
    (hw : ∀ i, i < crv.nrows → crv.rs i < 2 ^ 32)
    (hr : rsid < 2 ^ 32)
    (hk : 1 ≤ k)
    (hcount : countOcc crv.rs rsid first0 (last + 1 - first0) = k) :
    ∃ i0, find_rv_variantkey_by_rsid crv first0 last rsid = (crv.vk i0, i0) ∧
      first0 ≤ i0 ∧ i0 + (k - 1) ≤ last ∧
      next_calls crv last rsid k i0 =
        ((List.range' (i0 + 1) (k - 1)).map fun j => (crv.vk j, j)) ++
          [(0, last + 1)] := by
  obtain ⟨j, hj1, hj2, hj3⟩ :=
    countOcc_pos crv.rs rsid (last + 1 - first0) first0 (by rw [hcount]; exact hk)
  have hj2l : j ≤ last := window_upper_bound first0 last j hj1 hj2
  obtain ⟨i0, hfind, h1, h2, h3, h4⟩ :=
    find_rv_first_occ crv first0 last rsid hsort hlast hw hr ⟨j, hj1, hj2l, hj3⟩
  obtain ⟨il, hil_rs, hil_ge, hil_le, hmax⟩ :
      ∃ il, crv.rs il = rsid ∧ first0 ≤ il ∧ il ≤ last ∧
        ∀ m, first0 ≤ m → m ≤ last → crv.rs m = rsid → m ≤ il := by
    refine ⟨Nat.findGreatest (fun m => crv.rs m = rsid ∧ first0 ≤ m) last,
      (Nat.findGreatest_spec (P := fun m => crv.rs m = rsid ∧ first0 ≤ m)
        hj2l ⟨hj3, hj1⟩).1,
      (Nat.findGreatest_spec (P := fun m => crv.rs m = rsid ∧ first0 ≤ m)
        hj2l ⟨hj3, hj1⟩).2,
      Nat.findGreatest_le last,
      fun m hm1 hm2 hm3 => Nat.le_findGreatest hm2 ⟨hm3, hm1⟩⟩
  have hi0il : i0 ≤ il := hmax i0 h1 h2 h3
  have hchar : ∀ m, first0 ≤ m → m ≤ last → (crv.rs m = rsid ↔ i0 ≤ m ∧ m ≤ il) :=
    occ_char crv.rs rsid first0 last i0 il crv.nrows hsort hlast h1 h2 h3 h4
      hil_rs hil_le hmax
  obtain ⟨a, ha⟩ := Nat.le.dest h1
  obtain ⟨b, hb⟩ := Nat.le.dest hi0il
  obtain ⟨c, hc⟩ := Nat.le.dest hil_le
  subst ha
  subst hb
  subst hc
  rw [window_len_eq first0 a b c] at hcount
  have hfirst0_ab : first0 ≤ first0 + a + b :=
    Nat.le_trans (Nat.le_add_right first0 a) (Nat.le_add_right (first0 + a) b)
  have hbk : b + 1 = k := by
    refine block_count_add crv.rs rsid first0 a b c k h4 ?_ ?_ hcount
    · intro m hm1 hm2
      have hm3 : m ≤ first0 + a + b := Nat.lt_succ_iff.mp hm2
      exact (hchar m (Nat.le_trans (Nat.le_add_right first0 a) hm1)
        (Nat.le_trans hm3 (Nat.le_add_right (first0 + a + b) c))).mpr ⟨hm1, hm3⟩
    · intro m hm1 hm2 hcon
      rw [show first0 + a + (b + 1) + c = first0 + a + b + c + 1 from
        Nat.succ_add (first0 + a + b) c] at hm2
      have hm4 : m ≤ first0 + a + b + c := Nat.lt_succ_iff.mp hm2
      have hle_il := ((hchar m
        (Nat.le_trans hfirst0_ab (Nat.le_trans (Nat.le_succ _) hm1)) hm4).mp
        hcon).2
      exact absurd hle_il (Nat.not_le.mpr (Nat.lt_of_succ_le hm1))
  subst hbk
  have hblock := next_calls_block crv (first0 + a + b + c) rsid (first0 + a + b)
    b (first0 + a) rfl (Nat.le_add_right (first0 + a + b) c)
    (fun j2 hja hjb =>
      (hchar j2 (Nat.le_trans (Nat.le_add_right first0 a) hja)
        (Nat.le_trans hjb (Nat.le_add_right (first0 + a + b) c))).mpr ⟨hja, hjb⟩)
    (fun hle hcon =>
      Nat.not_succ_le_self (first0 + a + b)
        (hmax (first0 + a + b + 1)
          (Nat.le_trans hfirst0_ab (Nat.le_succ _)) hle hcon))
  exact ⟨first0 + a, hfind, Nat.le_add_right first0 a,
    Nat.le_add_right (first0 + a + b) c, hblock⟩

/-- Witness for C4: rsID 5 occurs exactly twice in `exampleRV`; the lookup
lands on index 1 and the two next calls return the second duplicate and then
the not-found sentinel. -/
theorem find_then_next_streams_duplicates_witness :
    ∃ i0, find_rv_variantkey_by_rsid exampleRV 0 3 5 = (exampleRV.vk i0, i0) ∧
      0 ≤ i0 ∧ i0 + (2 - 1) ≤ 3 ∧
      next_calls exampleRV 3 5 2 i0 =
        ((List.range' (i0 + 1) (2 - 1)).map fun j => (exampleRV.vk j, j)) ++
          [(0, 3 + 1)] :=
  find_then_next_streams_duplicates exampleRV 0 3 5 2 (by decide) (by decide)
    (by decide) (by decide) (by decide) (by decide)

/-- C2: on a VKRS view sorted ascending by VariantKey, for a chromosome in
`[0, 31]` and a position window `pos_min ≤ pos_max < 2 ^ 28`, the range
query restricts `[*first, *last]` so that every index in the returned range
has its key inside `[vk_min, vk_max]`, no index of the original window
outside the returned range does, and when a match exists the returned rsID
is the value at the first matching row. -/
theorem find_vr_chrompos_range_window
    (cvr : rsidvar_cols_t) (first0 last0 chrom pos_min pos_max : Nat)
    (hsort : ∀ j, j < cvr.nrows → ∀ i, i ≤ j → cvr.vk i ≤ cvr.vk j)
    (hlast : last0 < cvr.nrows)
    (hw : ∀ i, i < cvr.nrows → cvr.vk i < 2 ^ 64)
    (hc : chrom ≤ 31) (hpm : pos_min ≤ pos_max) (hpx : pos_max < 2 ^ 28) :
    (∀ i, (find_vr_chrompos_range cvr first0 last0 chrom pos_min pos_max).2.1 ≤ i →
        i ≤ (find_vr_chrompos_range cvr first0 last0 chrom pos_min pos_max).2.2 →
        ((chrom <<< 59) ||| (pos_min <<< 31)) ≤ cvr.vk i ∧
          cvr.vk i ≤ ((chrom <<< 59) ||| (pos_max <<< 31) ||| 0x7FFFFFFF)) ∧
    (∀ i, first0 ≤ i → i ≤ last0 →
        (i < (find_vr_chrompos_range cvr first0 last0 chrom pos_min pos_max).2.1 ∨
          (find_vr_chrompos_range cvr first0 last0 chrom pos_min pos_max).2.2 < i) →
        ¬(((chrom <<< 59) ||| (pos_min <<< 31)) ≤ cvr.vk i ∧
          cvr.vk i ≤ ((chrom <<< 59) ||| (pos_max <<< 31) ||| 0x7FFFFFFF))) ∧
    ((∃ i, first0 ≤ i ∧ i ≤ last0 ∧
        ((chrom <<< 59) ||| (pos_min <<< 31)) ≤ cvr.vk i ∧
        cvr.vk i ≤ ((chrom <<< 59) ||| (pos_max <<< 31) ||| 0x7FFFFFFF)) →
      (find_vr_chrompos_range cvr first0 last0 chrom pos_min pos_max).1 =
        cvr.rs (find_vr_chrompos_range cvr first0 last0 chrom pos_min pos_max).2.1) := by
  set vmin := (chrom <<< 59) ||| (pos_min <<< 31) with hvmin
  set vmax := (chrom <<< 59) ||| (pos_max <<< 31) ||| 0x7FFFFFFF with hvmax
  have hminlt : vmin < 2 ^ 64 := by
    rw [hvmin]; exact vk_prefix_lt _ _ hc (Nat.lt_of_le_of_lt hpm hpx)
  have hmaxlt : vmax < 2 ^ 64 := by rw [hvmax]; exact vk_max_lt _ _ hc hpx
  have hwc : ∀ j, first0 ≤ j → j ≤ last0 → cvr.vk j < 2 ^ 64 :=
    fun j _ h2 => hw j (Nat.lt_of_le_of_lt h2 hlast)
  obtain ⟨L, U, hr, hL_ge, hU_ge, hU_le, hF1, hF4, hF2, hF3⟩ :
      ∃ L U, (find_vr_chrompos_range cvr first0 last0 chrom pos_min pos_max =
          if U ≤ L then (0, last0 + 1, last0) else (cvr.rs L, L, U - 1)) ∧
        first0 ≤ L ∧ L ≤ U ∧ U ≤ L + (last0 + 1 - L) ∧
        (∀ j, first0 ≤ j → j < L → cvr.vk j < vmin) ∧
        (L ≤ last0 → vmin ≤ cvr.vk L) ∧
        (∀ j, L ≤ j → j < U → cvr.vk j ≤ vmax) ∧
        (U ≤ last0 → vmax < cvr.vk U) := by
    refine ⟨lower_bound cvr.vk vmin first0 last0 MASK64,
      upper_bound cvr.vk vmax (lower_bound cvr.vk vmin first0 last0 MASK64)
        last0 MASK64, ?_,
      lower_bound_ge _ _ _ _ _, upper_bound_ge _ _ _ _ _,
      upper_bound_le _ _ _ _ _,
      fun j h1 h2 => lower_bound_min_lt cvr.vk vmin first0 last0 64 MASK64 rfl
        hminlt hwc j h1 h2,
      fun h => lower_bound_found_le cvr.vk vmin first0 last0 64 MASK64 rfl
        hminlt hwc h,
      fun j h1 h2 => upper_bound_min_le cvr.vk vmax _ last0 64 MASK64 rfl
        hmaxlt (fun j2 _ hb => hw j2 (Nat.lt_of_le_of_lt hb hlast)) j h1 h2,
      fun h => upper_bound_found_lt cvr.vk vmax _ last0 64 MASK64 rfl hmaxlt
        (fun j2 _ hb => hw j2 (Nat.lt_of_le_of_lt hb hlast)) h⟩
    rw [chrompos_eq_def, ← hvmin, ← hvmax]
  exact range_window_core cvr first0 last0 vmin vmax L U hsort hlast hL_ge hU_ge
    hU_le hF1 hF4 hF2 hF3 _ hr

/-- Witness for C2: chromosome 0, position window `[0, 0]` over `exampleVR`;
rows 0 and 1 fall inside the window, row 2 falls outside, and the call
returns the rsID of row 0. -/
theorem find_vr_chrompos_range_window_witness :
    (∀ i, (find_vr_chrompos_range exampleVR 0 2 0 0 0).2.1 ≤ i →
        i ≤ (find_vr_chrompos_range exampleVR 0 2 0 0 0).2.2 →
        ((0 <<< 59) ||| (0 <<< 31)) ≤ exampleVR.vk i ∧
          exampleVR.vk i ≤ ((0 <<< 59) ||| (0 <<< 31) ||| 0x7FFFFFFF)) ∧
    (∀ i, 0 ≤ i → i ≤ 2 →
        (i < (find_vr_chrompos_range exampleVR 0 2 0 0 0).2.1 ∨
          (find_vr_chrompos_range exampleVR 0 2 0 0 0).2.2 < i) →
        ¬(((0 <<< 59) ||| (0 <<< 31)) ≤ exampleVR.vk i ∧
          exampleVR.vk i ≤ ((0 <<< 59) ||| (0 <<< 31) ||| 0x7FFFFFFF))) ∧
    ((∃ i, 0 ≤ i ∧ i ≤ 2 ∧
        ((0 <<< 59) ||| (0 <<< 31)) ≤ exampleVR.vk i ∧
        exampleVR.vk i ≤ ((0 <<< 59) ||| (0 <<< 31) ||| 0x7FFFFFFF)) →
      (find_vr_chrompos_range exampleVR 0 2 0 0 0).1 =
        exampleVR.rs (find_vr_chrompos_range exampleVR 0 2 0 0 0).2.1) :=
  find_vr_chrompos_range_window exampleVR 0 2 0 0 0 (by decide) (by decide)
    (by decide) (by decide) (by decide) (by decide)

/-- C6: when the two binary searches leave an empty overlap (the computed
lower index exceeds the computed upper index), the range query sets
`*first = *last + 1`, leaves `*last` unchanged and returns rsID 0. -/
theorem find_vr_chrompos_range_empty (cvr : rsidvar_cols_t)
    (first0 last0 chrom pos_min pos_max : Nat)
    (h : upper_bound cvr.vk ((chrom <<< 59) ||| (pos_max <<< 31) ||| 0x7FFFFFFF)
          (lower_bound cvr.vk ((chrom <<< 59) ||| (pos_min <<< 31)) first0 last0
            MASK64) last0 MASK64
        ≤ lower_bound cvr.vk ((chrom <<< 59) ||| (pos_min <<< 31)) first0 last0
            MASK64) :
    find_vr_chrompos_range cvr first0 last0 chrom pos_min pos_max =
      (0, last0 + 1, last0) := by
  rw [chrompos_eq_def, if_pos h]

/-- Witness for C6: chromosome 2 matches nothing in `exampleVR`, so the
query reports the empty range via cursor 3 and rsID 0. -/
theorem find_vr_chrompos_range_empty_witness :
    find_vr_chrompos_range exampleVR 0 2 2 0 0 = (0, 2 + 1, 2) :=
  find_vr_chrompos_range_empty exampleVR 0 2 2 0 0 (by decide)

theorem lower_bound_congr (col col2 : Nat → Nat) (key lo hi mask : Nat)
    (h : ∀ j, lo ≤ j → j ≤ hi → col j = col2 j) :
    lower_bound col key lo hi mask = lower_bound col2 key lo hi mask := by
  unfold lower_bound
  apply scanFirst_congr
  intro j hj1 hj2
  rw [h j hj1 (window_upper_bound lo hi j hj1 hj2)]

theorem upper_bound_congr (col col2 : Nat → Nat) (key lo hi mask : Nat)
    (h : ∀ j, lo ≤ j → j ≤ hi → col j = col2 j) :
    upper_bound col key lo hi mask = upper_bound col2 key lo hi mask := by
  unfold upper_bound
  apply scanFirst_congr
  intro j hj1 hj2
  rw [h j hj1 (window_upper_bound lo hi j hj1 hj2)]

/-- Two-row table serving as both roles of the round-trip counterexample:
as RSVK it has rsID key column `[5, 5]` with VariantKey values `[100, 200]`;
as VKRS it has VariantKey key column `[100, 200]` with rsID values `[5, 5]`. -/
def cexTab : rsidvar_cols_t :=
  ⟨(fun i => [100, 200].getD i 0), (fun i => [5, 5].getD i 0), 2⟩

/-- Counterexample to C8 as stated: `cexTab` has both key columns sorted
ascending and contains the pair (rsID 5, VariantKey 200) as a row in both
table roles (row 1), yet find-first on the full RSVK table with rsID 5
returns VariantKey 100 — the value of the FIRST row keyed 5 — and not 200. -/
theorem round_trip_counterexample :
    (∀ j, j < cexTab.nrows → ∀ i, i ≤ j → cexTab.rs i ≤ cexTab.rs j) ∧
    (∀ j, j < cexTab.nrows → ∀ i, i ≤ j → cexTab.vk i ≤ cexTab.vk j) ∧
    cexTab.rs 1 = 5 ∧ cexTab.vk 1 = 200 ∧ 1 < cexTab.nrows ∧
    (find_rv_variantkey_by_rsid cexTab 0 (cexTab.nrows - 1) 5).1 ≠ 200 := by
  decide

/-- C8 amended: for a pair (rsid, variantkey) present as a row in both
tables, where that row is the FIRST row keyed `rsid` in the RSVK table and
the FIRST row keyed `variantkey` in the VKRS table, find-first on the full
RSVK table with `rsid` returns `variantkey` and find-first on the full VKRS
table with `variantkey` returns `rsid`. -/
theorem round_trip_first_occurrence
    (crv cvr : rsidvar_cols_t) (rsid vkey : Nat)
    (hsort_rv : ∀ j, j < crv.nrows → ∀ i, i ≤ j → crv.rs i ≤ crv.rs j)
    (hsort_vr : ∀ j, j < cvr.nrows → ∀ i, i ≤ j → cvr.vk i ≤ cvr.vk j)
    (hw_rv : ∀ i, i < crv.nrows → crv.rs i < 2 ^ 32)
    (hw_vr : ∀ i, i < cvr.nrows → cvr.vk i < 2 ^ 64)
    (hr : rsid < 2 ^ 32) (hv : vkey < 2 ^ 64)
    (i : Nat) (hi : i < crv.nrows) (hi_rs : crv.rs i = rsid)
    (hi_vk : crv.vk i = vkey)
    (hi_first : ∀ m, m < i → crv.rs m ≠ rsid)
    (j : Nat) (hj : j < cvr.nrows) (hj_vk : cvr.vk j = vkey)
    (hj_rs : cvr.rs j = rsid)
    (hj_first : ∀ m, m < j → cvr.vk m ≠ vkey) :
    find_rv_variantkey_by_rsid crv 0 (crv.nrows - 1) rsid = (vkey, i) ∧
    find_vr_rsid_by_variantkey cvr 0 (cvr.nrows - 1) vkey = (rsid, j) := by
  constructor
  · obtain ⟨i0, heq, h1, h2, h3, h4⟩ := find_rv_first_occ crv 0 (crv.nrows - 1)
      rsid hsort_rv (sub_one_lt_self i _ hi) hw_rv hr
      ⟨i, Nat.zero_le i, le_sub_one_of_lt i _ hi, hi_rs⟩
    have hii : i0 = i := by
      rcases Nat.lt_trichotomy i0 i with hlt | heqq | hgt
      · exact absurd h3 (hi_first i0 hlt)
      · exact heqq
      · exact absurd hi_rs (h4 i (Nat.zero_le i) hgt)
    subst hii
    rw [heq, hi_vk]
  · obtain ⟨j0, heq, h1, h2, h3, h4⟩ := find_vr_first_occ cvr 0 (cvr.nrows - 1)
      vkey hsort_vr (sub_one_lt_self j _ hj) hw_vr hv
      ⟨j, Nat.zero_le j, le_sub_one_of_lt j _ hj, hj_vk⟩
    have hjj : j0 = j := by
      rcases Nat.lt_trichotomy j0 j with hlt | heqq | hgt
      · exact absurd h3 (hj_first j0 hlt)
      · exact heqq
      · exact absurd hj_vk (h4 j (Nat.zero_le j) hgt)
    subst hjj
    rw [heq, hj_rs]

/-- One-row table holding the pair (rsID 5, VariantKey 777) in both roles,
used by the witness of the amended round-trip. -/
def cexPair : rsidvar_cols_t :=
  ⟨(fun i => [777].getD i 0), (fun i => [5].getD i 0), 1⟩

/-- Witness for the amended C8 at `cexPair`: both lookups invert each other
on the pair (5, 777), which is the first occurrence of its key in both
roles. -/
theorem round_trip_first_occurrence_witness :
    find_rv_variantkey_by_rsid cexPair 0 (cexPair.nrows - 1) 5 = (777, 0) ∧
    find_vr_rsid_by_variantkey cexPair 0 (cexPair.nrows - 1) 777 = (5, 0) :=
  round_trip_first_occurrence cexPair cexPair 5 777 (by decide) (by decide)
    (by decide) (by decide) (by decide) (by decide) 0 (by decide) (by decide)
    (by decide) (by decide) 0 (by decide) (by decide) (by decide) (by decide)

/-- C10: the lookups are deterministic functions of the table contents below
`nrows`, the cursor inputs and the search arguments: two views with equal
key column, value column and row count produce equal return values and
equal final cursors for all four operations. -/
theorem lookups_deterministic
    (crv crv2 : rsidvar_cols_t)
    (first0 pos last rsid vkey chrom pos_min pos_max : Nat)
    (hn : crv.nrows = crv2.nrows)
    (hrs : ∀ i, i < crv.nrows → crv.rs i = crv2.rs i)
    (hvk : ∀ i, i < crv.nrows → crv.vk i = crv2.vk i)
    (hlast : last < crv.nrows) :
    find_rv_variantkey_by_rsid crv first0 last rsid =
      find_rv_variantkey_by_rsid crv2 first0 last rsid ∧
    get_next_rv_variantkey_by_rsid crv pos last rsid =
      get_next_rv_variantkey_by_rsid crv2 pos last rsid ∧
    find_vr_rsid_by_variantkey crv first0 last vkey =
      find_vr_rsid_by_variantkey crv2 first0 last vkey ∧
    find_vr_chrompos_range crv first0 last chrom pos_min pos_max =
      find_vr_chrompos_range crv2 first0 last chrom pos_min pos_max := by
  have hcrs : ∀ j, first0 ≤ j → j ≤ last → crv.rs j = crv2.rs j :=
    fun j _ h2 => hrs j (Nat.lt_of_le_of_lt h2 hlast)
  have hcvk : ∀ j, first0 ≤ j → j ≤ last → crv.vk j = crv2.vk j :=
    fun j _ h2 => hvk j (Nat.lt_of_le_of_lt h2 hlast)
  refine ⟨?_, ?_, ?_, ?_⟩
  · have hL : lower_bound crv.rs rsid first0 last MASK32 =
        lower_bound crv2.rs rsid first0 last MASK32 :=
      lower_bound_congr _ _ _ _ _ _ hcrs
    rw [find_rv_eq_def, find_rv_eq_def, ← hL]
    by_cases h1 : lower_bound crv.rs rsid first0 last MASK32 ≤ last
    · have hL_lt : lower_bound crv.rs rsid first0 last MASK32 < crv.nrows :=
        Nat.lt_of_le_of_lt h1 hlast
      rw [if_pos h1, if_pos h1, ← hrs _ hL_lt, ← hvk _ hL_lt]
    · rw [if_neg h1, if_neg h1]
  · rw [get_next_eq_def, get_next_eq_def]
    by_cases h1 : pos + 1 ≤ last
    · have hp_lt : pos + 1 < crv.nrows := Nat.lt_of_le_of_lt h1 hlast
      rw [if_pos h1, if_pos h1, ← hrs _ hp_lt, ← hvk _ hp_lt]
    · rw [if_neg h1, if_neg h1]
  · have hL : lower_bound crv.vk vkey first0 last MASK64 =
        lower_bound crv2.vk vkey first0 last MASK64 :=
      lower_bound_congr _ _ _ _ _ _ hcvk
    rw [find_vr_eq_def, find_vr_eq_def, ← hL]
    by_cases h1 : lower_bound crv.vk vkey first0 last MASK64 ≤ last
    · have hL_lt : lower_bound crv.vk vkey first0 last MASK64 < crv.nrows :=
        Nat.lt_of_le_of_lt h1 hlast
      rw [if_pos h1, if_pos h1, ← hvk _ hL_lt, ← hrs _ hL_lt]
    · rw [if_neg h1, if_neg h1]
  · have hL : lower_bound crv.vk ((chrom <<< 59) ||| (pos_min <<< 31)) first0
        last MASK64 =
        lower_bound crv2.vk ((chrom <<< 59) ||| (pos_min <<< 31)) first0
          last MASK64 :=
      lower_bound_congr _ _ _ _ _ _ hcvk
    have hU : upper_bound crv.vk
        ((chrom <<< 59) ||| (pos_max <<< 31) ||| 0x7FFFFFFF)
        (lower_bound crv.vk ((chrom <<< 59) ||| (pos_min <<< 31)) first0 last
          MASK64) last MASK64 =
        upper_bound crv2.vk
          ((chrom <<< 59) ||| (pos_max <<< 31) ||| 0x7FFFFFFF)
          (lower_bound crv.vk ((chrom <<< 59) ||| (pos_min <<< 31)) first0 last
            MASK64) last MASK64 :=
      upper_bound_congr _ _ _ _ _ _ (fun j _ h2 => hvk j (Nat.lt_of_le_of_lt h2 hlast))
    rw [chrompos_eq_def, chrompos_eq_def, ← hL, ← hU]
    by_cases hbr : upper_bound crv.vk
        ((chrom <<< 59) ||| (pos_max <<< 31) ||| 0x7FFFFFFF)
        (lower_bound crv.vk ((chrom <<< 59) ||| (pos_min <<< 31)) first0 last
          MASK64) last MASK64 ≤
        lower_bound crv.vk ((chrom <<< 59) ||| (pos_min <<< 31)) first0 last
          MASK64
    · rw [if_pos hbr, if_pos hbr]
    · have hU_le := upper_bound_le crv.vk
        ((chrom <<< 59) ||| (pos_max <<< 31) ||| 0x7FFFFFFF)
        (lower_bound crv.vk ((chrom <<< 59) ||| (pos_min <<< 31)) first0 last
          MASK64) last MASK64
      have hL_lt : lower_bound crv.vk ((chrom <<< 59) ||| (pos_min <<< 31))
          first0 last MASK64 < crv.nrows :=
        Nat.lt_of_le_of_lt
          (scan_bounds_of_lt _ _ last hU_le (Nat.not_le.mp hbr)).1 hlast
      rw [if_neg hbr, if_neg hbr, ← hrs _ hL_lt]

/-- Copy of `exampleRV` whose column maps differ only at indices at or
beyond `nrows`, used to witness that only in-bounds contents matter. -/
def exampleRV2 : rsidvar_cols_t :=
  ⟨(fun i => [10, 20, 25, 30, 999].getD i 0),
    (fun i => [1, 5, 5, 7, 999].getD i 0), 4⟩

/-- Witness for C10: `exampleRV` and `exampleRV2` agree on all rows below
`nrows = 4` but differ at index 4, and all four lookups coincide on them. -/
theorem lookups_deterministic_witness :
    find_rv_variantkey_by_rsid exampleRV 0 3 5 =
      find_rv_variantkey_by_rsid exampleRV2 0 3 5 ∧
    get_next_rv_variantkey_by_rsid exampleRV 1 3 5 =
      get_next_rv_variantkey_by_rsid exampleRV2 1 3 5 ∧
    find_vr_rsid_by_variantkey exampleRV 0 3 20 =
      find_vr_rsid_by_variantkey exampleRV2 0 3 20 ∧
    find_vr_chrompos_range exampleRV 0 3 0 0 0 =
      find_vr_chrompos_range exampleRV2 0 3 0 0 0 :=
  lookups_deterministic exampleRV exampleRV2 0 1 3 5 20 0 0 0 (by decide)
    (by decide) (by decide) (by decide)

end Rsidvar
